import Mathlib

/-!
Shallow embedding of the two command-line utilities of this repository:

* `scripts/rename_by_chapter.py` — Chinese-numeral converter
  (`chinese_to_number`), chapter-title parser (`parse_chapter_title`),
  filename formatter (`format_chapter_number`) and the renaming driver
  (`process_md_files`).
* `scripts/merge_files.py` — frontmatter splitter
  (`extract_frontmatter_and_content`) and the pair-merging driver
  (`merge_files`).

Texts are modelled as `List Char` (Python `str` is a sequence of Unicode
code points).  Python's arbitrary-precision `int` is modelled as `Int`.
The filesystem is modelled as an association list from file names to file
contents; a content of `none` stands for a file whose read raises an
exception.  All definitions are translated from the Python source.
-/

namespace KR3k

/-! ## Chinese numeral converter (`chinese_to_number`) -/

/-- The `chinese_nums` dictionary, as a total lookup with the default `0`
used by `chinese_nums.get(char, 0)` in the source. -/
def chineseNums (c : Char) : Int :=
  if c = '零' then 0 else if c = '一' then 1 else if c = '二' then 2
  else if c = '三' then 3 else if c = '四' then 4 else if c = '五' then 5
  else if c = '六' then 6 else if c = '七' then 7 else if c = '八' then 8
  else if c = '九' then 9 else if c = '十' then 10 else if c = '百' then 100
  else 0

/-- The `for` loop of `chinese_to_number`, threading the `temp` (pending
digit) and `result` (running total) variables; the trailing
`result += temp` is the `[]` case. -/
def c2nLoop : Int → Int → List Char → Int
  | temp, result, [] => result + temp
  | temp, result, c :: cs =>
    if c = '百' then c2nLoop 0 (result + (if temp = 0 then 1 else temp) * 100) cs
    else if c = '十' then c2nLoop 0 (result + (if temp = 0 then 1 else temp) * 10) cs
    else c2nLoop (chineseNums c) result cs

/-- The function `chinese_to_number`: single-character strings are looked
up directly, all others (including the empty string) go through the loop. -/
def chinese_to_number : List Char → Int
  | [c] => chineseNums c
  | s => c2nLoop 0 0 s

/-- Modelled from the spec: one step of the left-to-right fold with state
(pending digit, running total) described in section 4.3 of the spec.  The
hundreds marker commits `(pending-or-1) * 100` and clears the pending
digit, the tens marker commits `(pending-or-1) * 10` and clears it, and
any other character overwrites the pending digit with its table value
(`0` for characters outside the recognized set, the documented leniency). -/
def specStep : Int × Int → Char → Int × Int
  | (pending, total), c =>
    if c = '百' then (0, total + (if pending = 0 then 1 else pending) * 100)
    else if c = '十' then (0, total + (if pending = 0 then 1 else pending) * 10)
    else (chineseNums c, total)

/-- Modelled from the spec: the whole left-to-right fold of section 4.3,
adding the leftover pending digit as a ones value after the scan. -/
def specFoldConverter (s : List Char) : Int :=
  let st := s.foldl specStep (0, 0)
  st.2 + st.1

/-! ## Chapter title parser (`parse_chapter_title`) -/

/-- The character class `[一二三四五六七八九十百]` of both heading regexes. -/
def isNum (c : Char) : Bool :=
  c = '一' || c = '二' || c = '三' || c = '四' || c = '五' || c = '六' ||
  c = '七' || c = '八' || c = '九' || c = '十' || c = '百'

/-- Python's `\s` class restricted to the ASCII range (the file names and
headings in this corpus contain no non-ASCII whitespace). -/
def reSpace (c : Char) : Bool :=
  c = ' ' || c = '\t' || c = '\n' || c = '\r' || c = '\x0B' || c = '\x0C'

/-- Matching of `re.match(r'^#\s+卷([一二三四五六七八九十百]+)之([一二三四五六七八九十百]+)', line)`.
Since `卷`, `之` and the end of the pattern cannot consume numeral-class
characters, the greedy `+` runs are exactly the maximal runs, and
`re.match` only anchors at the start, so trailing text is ignored. -/
def matchP1 (line : List Char) : Option (List Char × List Char) :=
  match line with
  | '#' :: rest =>
    match rest.span reSpace with
    | ([], _) => none
    | (_ :: _, rest2) =>
      match rest2 with
      | '卷' :: r3 =>
        match r3.span isNum with
        | ([], _) => none
        | (v, r4) =>
          match r4 with
          | '之' :: r5 =>
            match r5.takeWhile isNum with
            | [] => none
            | s => some (v, s)
          | _ => none
      | _ => none
  | _ => none

/-- Matching of `re.match(r'^#\s+卷([一二三四五六七八九十百]+)(?:目録)?$', line)`.
The `$` requires the line to end right after the numeral run or after the
optional `目録` suffix (lines produced by `split('\n')` contain no newline,
so `$` is the end of the line). -/
def matchP2 (line : List Char) : Option (List Char) :=
  match line with
  | '#' :: rest =>
    match rest.span reSpace with
    | ([], _) => none
    | (_ :: _, rest2) =>
      match rest2 with
      | '卷' :: r3 =>
        match r3.span isNum with
        | ([], _) => none
        | (v, r4) =>
          if r4 = [] || r4 = ['目', '録'] then some v else none
      | _ => none
  | _ => none

/-- Python's `content.split('\n')`. -/
def splitLines : List Char → List (List Char)
  | [] => [[]]
  | c :: cs =>
    if c = '\n' then [] :: splitLines cs
    else
      match splitLines cs with
      | [] => [[c]]
      | t :: ts => (c :: t) :: ts

/-- The `for line in content.split('\n')` loop of `parse_chapter_title`:
pattern 1 is tried first on every line, then pattern 2, and the first
match returns immediately. -/
def parseLines : List (List Char) → Option (Int × Option Int)
  | [] => none
  | l :: ls =>
    match matchP1 l with
    | some (v, s) => some (chinese_to_number v, some (chinese_to_number s))
    | none =>
      match matchP2 l with
      | some v => some (chinese_to_number v, none)
      | none => parseLines ls

/-- The function `parse_chapter_title`. -/
def parse_chapter_title (content : List Char) : Option (Int × Option Int) :=
  parseLines (splitLines content)

/-- The result a single line contributes: pattern 1 tried before
pattern 2.  Used to state that `parse_chapter_title` is determined by the
first matching line. -/
def lineChapter (l : List Char) : Option (Int × Option Int) :=
  match matchP1 l with
  | some (v, s) => some (chinese_to_number v, some (chinese_to_number s))
  | none =>
    match matchP2 l with
    | some v => some (chinese_to_number v, none)
    | none => none

/-! ## Decimal formatting (`format_chapter_number`, `f"{n:03d}"`) -/

/-- The decimal digit character for `n < 10`. -/
def digitChar (n : Nat) : Char := Char.ofNat (48 + n)

/-- Fuelled most-significant-first decimal digits of a natural number. -/
def natCharsGo : Nat → Nat → List Char
  | 0, _ => []
  | fuel + 1, n =>
    if n < 10 then [digitChar n]
    else natCharsGo fuel (n / 10) ++ [digitChar (n % 10)]

/-- Decimal digit characters of a natural number (`str(n)` for `n ≥ 0`). -/
def natToChars (n : Nat) : List Char := natCharsGo (n + 1) n

/-- Python's `f"{n:0wd}"` for a nonnegative value: left-pad the decimal
representation with zeros to width `w`. -/
def padNat (w : Nat) (n : Nat) : List Char :=
  let ds := natToChars n
  List.replicate (w - ds.length) '0' ++ ds

/-- Python's `f"{n:0wd}"` for an arbitrary integer: a negative value gets
a leading minus sign which counts toward the width. -/
def padInt (w : Nat) (n : Int) : List Char :=
  if n < 0 then '-' :: padNat (w - 1) (-n).toNat else padNat w n.toNat

/-- The function `format_chapter_number`: `f"{volume:03d}"` when the
section is absent, `f"{volume:03d}_{section:02d}"` otherwise. -/
def format_chapter_number (volume : Int) (sec : Option Int) : List Char :=
  match sec with
  | none => padInt 3 volume
  | some s => padInt 3 volume ++ '_' :: padInt 2 s

/-- Value of a list of decimal digit characters (`int(s)` for a digit
string), as a left fold. -/
def digitsVal (l : List Char) : Nat :=
  l.foldl (fun a c => a * 10 + (c.toNat - 48)) 0

/-! ## Renaming driver (`process_md_files`) -/

/-- Per-file outcome of one iteration of the `process_md_files` loop,
matching the five status lines printed by the source plus the `except`
branch. -/
inductive FileOutcome where
  | skippedNoChapter
  | skippedAlreadyCorrect
  | failedConflict
  | renamedFile
  | dryRunRenamed
  | failedError
deriving DecidableEq

/-- State of the renaming batch: the directory contents (name, readable
content or `none` for a file whose read raises), the three counters and
the ordered list of per-file outcomes. -/
structure RState where
  fs : List (List Char × Option (List Char))
  renamed : Nat
  skipped : Nat
  failed : Nat
  outcomes : List (List Char × FileOutcome)
deriving DecidableEq

/-- Reading a file: `none` when the file is absent or its read raises. -/
def readContent (fs : List (List Char × Option (List Char))) (name : List Char) :
    Option (List Char) :=
  match fs.find? (fun e => e.1 == name) with
  | some e => e.2
  | none => none

/-- Whether a file of the given name exists (`new_file_path.exists()`). -/
def existsName (fs : List (List Char × Option (List Char))) (name : List Char) : Bool :=
  fs.any (fun e => e.1 == name)

/-- One iteration of the `for file_path in md_files` loop of
`process_md_files`: read, parse, the three skip/fail checks in source
order, then the rename (or dry-run report); any exception is caught and
counted as failed. -/
def processFile (dryRun : Bool) (st : RState) (name : List Char) : RState :=
  match readContent st.fs name with
  | none =>
    { st with failed := st.failed + 1,
              outcomes := st.outcomes ++ [(name, FileOutcome.failedError)] }
  | some content =>
    match parse_chapter_title content with
    | none =>
      { st with skipped := st.skipped + 1,
                outcomes := st.outcomes ++ [(name, FileOutcome.skippedNoChapter)] }
    | some (v, sec) =>
      let newName := format_chapter_number v sec ++ ".md".toList
      if name = newName then
        { st with skipped := st.skipped + 1,
                  outcomes := st.outcomes ++ [(name, FileOutcome.skippedAlreadyCorrect)] }
      else if existsName st.fs newName && newName != name then
        { st with failed := st.failed + 1,
                  outcomes := st.outcomes ++ [(name, FileOutcome.failedConflict)] }
      else if dryRun then
        { st with renamed := st.renamed + 1,
                  outcomes := st.outcomes ++ [(name, FileOutcome.dryRunRenamed)] }
      else
        { st with fs := st.fs.map (fun e => if e.1 == name then (newName, e.2) else e),
                  renamed := st.renamed + 1,
                  outcomes := st.outcomes ++ [(name, FileOutcome.renamedFile)] }

/-- The glob `KR3k0059_*.md` used by both drivers: the fixed prefix, the
fixed suffix, and `*` matching any (possibly empty) run of characters. -/
def globMatch (name : List Char) : Bool :=
  ("KR3k0059_".toList).isPrefixOf name && (".md".toList).isSuffixOf name &&
    decide (12 ≤ name.length)

/-- Lexicographic order on code points, as Python's `sorted` compares
path strings. -/
def lexLe : List Char → List Char → Bool
  | [], _ => true
  | _ :: _, [] => false
  | a :: as, b :: bs =>
    if a.toNat < b.toNat then true
    else if b.toNat < a.toNat then false
    else lexLe as bs

/-- Insertion step of the sort of file names. -/
def insertName (x : List Char) : List (List Char) → List (List Char)
  | [] => [x]
  | y :: ys => if lexLe x y then x :: y :: ys else y :: insertName x ys

/-- Insertion sort of file names (`sorted(md_path.glob(...))`). -/
def sortNames : List (List Char) → List (List Char)
  | [] => []
  | x :: xs => insertName x (sortNames xs)

/-- The whole `for` loop of `process_md_files` over a list of names. -/
def runFiles (dryRun : Bool) (st : RState) (names : List (List Char)) : RState :=
  names.foldl (processFile dryRun) st

/-- The function `process_md_files` on a directory: glob, sort, then the
per-file loop starting from zero counters. -/
def process_md_files (dryRun : Bool) (fs : List (List Char × Option (List Char))) :
    RState :=
  let mdFiles := sortNames ((fs.map Prod.fst).filter globMatch)
  runFiles dryRun { fs := fs, renamed := 0, skipped := 0, failed := 0, outcomes := [] }
    mdFiles

/-! ## Frontmatter splitter (`extract_frontmatter_and_content`) -/

/-- The five-character separator `"\n---\n"` closing a frontmatter block. -/
def fmSep : List Char := ['\n', '-', '-', '-', '\n']

/-- The four-character opening marker `"---\n"` of the regex
`r'^---\n(.*?)\n---\n(.*)$'`. -/
def fmMarker : List Char := ['-', '-', '-', '\n']

/-- The first four characters `"\n---"` of the closing separator; a
frontmatter candidate followed by these four characters must not contain
the full separator for the lazy match to stop exactly there. -/
def fmTail : List Char := ['\n', '-', '-', '-']

/-- Whether `pat` occurs as a contiguous substring. -/
def hasSubstr (pat : List Char) : List Char → Bool
  | [] => pat.isEmpty
  | c :: cs => pat.isPrefixOf (c :: cs) || hasSubstr pat cs

/-- The lazy group `(.*?)` of the frontmatter regex: split at the first
occurrence of `"\n---\n"`, returning the part before it and the part
after it. -/
def splitFirstSep : List Char → Option (List Char × List Char)
  | [] => none
  | c :: cs =>
    if fmSep.isPrefixOf (c :: cs) then some ([], cs.drop 4)
    else (splitFirstSep cs).map (fun p => (c :: p.1, p.2))

/-- The function `extract_frontmatter_and_content`:
`re.match(r'^---\n(.*?)\n---\n(.*)$', content, re.DOTALL)` — under
`re.DOTALL` the trailing `(.*)$` takes everything after the first
closing separator, and on no match the whole text is the body. -/
def extract_frontmatter_and_content (s : List Char) : Option (List Char) × List Char :=
  if fmMarker.isPrefixOf s then
    match splitFirstSep (s.drop 4) with
    | some (fm, body) => (some fm, body)
    | none => (none, s)
  else (none, s)

/-! ## Pair merger (`merge_files`) -/

/-- Python truthiness of the frontmatter variable: `None` and the empty
string are falsy. -/
def pyTruthy : Option (List Char) → Bool
  | none => false
  | some s => !s.isEmpty

/-- Rendering of the frontmatter variable inside the f-string
`f"---\n{frontmatter}\n---\n..."`: `str(None)` is the literal `"None"`. -/
def renderFm : Option (List Char) → List Char
  | none => "None".toList
  | some s => s

/-- The body of the merge: split both files, keep the catalog's
frontmatter when truthy (else the content file's), and concatenate
`f"---\n{frontmatter}\n---\n{catalog_body}\n{content_body}"`. -/
def mergeDocs (catalogText contentText : List Char) : List Char :=
  let cat := extract_frontmatter_and_content catalogText
  let con := extract_frontmatter_and_content contentText
  let fm := if pyTruthy cat.1 then cat.1 else con.1
  fmMarker ++ renderFm fm ++ fmSep ++ cat.2 ++ '\n' :: con.2

/-- Matching of `re.search(r'KR3k0059_(\d+)\.md', name)` at one position:
the literal prefix, a maximal nonempty digit run (backtracking cannot
help since `.` is not a digit), then the literal `".md"`. -/
def matchSeqAt (l : List Char) : Option Nat :=
  if ("KR3k0059_".toList).isPrefixOf l then
    let rest := l.drop 9
    let ds := rest.takeWhile Char.isDigit
    if ds = [] then none
    else if (".md".toList).isPrefixOf (rest.dropWhile Char.isDigit) then
      some (digitsVal ds)
    else none
  else none

/-- The `re.search` over the whole name: first position that matches. -/
def searchSeqNum : List Char → Option Nat
  | [] => none
  | c :: cs =>
    match matchSeqAt (c :: cs) with
    | some n => some n
    | none => searchSeqNum cs

/-- Insertion into the `file_dict`, overwriting an existing key as a
Python dict assignment does. -/
def dictInsert (n : Nat) (content : List Char) (d : List (Nat × List Char)) :
    List (Nat × List Char) :=
  if d.any (fun e => e.1 == n) then
    d.map (fun e => if e.1 == n then (n, content) else e)
  else d ++ [(n, content)]

/-- Building `file_dict` from the globbed files: extract each sequence
number, skip names where the search fails. -/
def buildDict (files : List (List Char × List Char)) : List (Nat × List Char) :=
  files.foldl
    (fun d f =>
      match searchSeqNum f.1 with
      | some n => dictInsert n f.2 d
      | none => d) []

/-- Lookup in `file_dict` (`file_dict.get(num)`). -/
def dictLookup (d : List (Nat × List Char)) (n : Nat) : Option (List Char) :=
  match d.find? (fun e => e.1 == n) with
  | some e => some e.2
  | none => none

/-- The key set of `file_dict`, in insertion order. -/
def dictKeys (d : List (Nat × List Char)) : List Nat := d.map Prod.fst

/-- Insertion step of the numeric sort of `sorted(file_dict.keys())`. -/
def insertNat (x : Nat) : List Nat → List Nat
  | [] => [x]
  | y :: ys => if x ≤ y then x :: y :: ys else y :: insertNat x ys

/-- Insertion sort of the dictionary keys. -/
def sortNat : List Nat → List Nat
  | [] => []
  | x :: xs => insertNat x (sortNat xs)

/-- Insertion step of the sort of globbed (name, content) pairs. -/
def insertPair (x : List Char × List Char) :
    List (List Char × List Char) → List (List Char × List Char)
  | [] => [x]
  | y :: ys => if lexLe x.1 y.1 then x :: y :: ys else y :: insertPair x ys

/-- Insertion sort of globbed files by name (`sorted(md_path.glob(...))`). -/
def sortPairs : List (List Char × List Char) → List (List Char × List Char)
  | [] => []
  | x :: xs => insertPair x (sortPairs xs)

/-- The globbed, sorted input of the merge driver. -/
def mergeSource (files : List (List Char × List Char)) : List (List Char × List Char) :=
  sortPairs (files.filter (fun f => globMatch f.1))

/-- The output name `f"KR3k0059_{num:03d}.md"` of a merged pair. -/
def outName (n : Nat) : List Char :=
  "KR3k0059_".toList ++ padNat 3 n ++ ".md".toList

/-- One iteration of the `for num in sorted(file_dict.keys())` loop:
only odd numbers are considered, and a pair is merged only when both the
catalog file and the content file exist; a lone catalog file only prints
a warning. -/
def mergeStep (d : List (Nat × List Char)) (acc : List (List Char × List Char) × Nat)
    (n : Nat) : List (List Char × List Char) × Nat :=
  if n % 2 = 1 then
    match dictLookup d n, dictLookup d (n + 1) with
    | some cat, some con => (acc.1 ++ [(outName n, mergeDocs cat con)], acc.2 + 1)
    | _, _ => acc
  else acc

/-- Whether an odd key has its even partner, i.e. the pair is merged. -/
def mergeable (d : List (Nat × List Char)) (n : Nat) : Bool :=
  decide (n % 2 = 1) && (dictLookup d n).isSome && (dictLookup d (n + 1)).isSome

/-- The function `merge_files` on a directory, returning the written
output files and the final `merged_count`. -/
def merge_files (files : List (List Char × List Char)) :
    List (List Char × List Char) × Nat :=
  let d := buildDict (mergeSource files)
  (sortNat (dictKeys d)).foldl (mergeStep d) ([], 0)

/-! ## Theorems -/

set_option maxHeartbeats 2000000 in
theorem chineseNums_nonneg (c : Char) : 0 ≤ chineseNums c := by
  unfold chineseNums
  split_ifs <;> norm_num

theorem c2nLoop_nonneg (s : List Char) :
    ∀ temp result : Int, 0 ≤ temp → 0 ≤ result → 0 ≤ c2nLoop temp result s := by
  induction s with
  | nil =>
    intro temp result ht hr
    simpa [c2nLoop] using add_nonneg hr ht
  | cons c cs ih =>
    intro temp result ht hr
    have hp : (0 : Int) ≤ (if temp = 0 then 1 else temp) := by
      split_ifs with h
      · norm_num
      · exact ht
    by_cases h1 : c = '百'
    · have e : c2nLoop temp result (c :: cs) =
          c2nLoop 0 (result + (if temp = 0 then 1 else temp) * 100) cs := by
        rw [c2nLoop.eq_2, if_pos h1]
      rw [e]
      exact ih 0 _ le_rfl (add_nonneg hr (mul_nonneg hp (by norm_num)))
    · by_cases h2 : c = '十'
      · have e : c2nLoop temp result (c :: cs) =
            c2nLoop 0 (result + (if temp = 0 then 1 else temp) * 10) cs := by
          rw [c2nLoop.eq_2, if_neg h1, if_pos h2]
        rw [e]
        exact ih 0 _ le_rfl (add_nonneg hr (mul_nonneg hp (by norm_num)))
      · have e : c2nLoop temp result (c :: cs) = c2nLoop (chineseNums c) result cs := by
          rw [c2nLoop.eq_2, if_neg h1, if_neg h2]
        rw [e]
        exact ih (chineseNums c) result (chineseNums_nonneg c) hr

/-- C6: the Converter maps "一" to 1, "十" to 10, "四十三" to 43,
"一百" to 100, "一百二" to 102, "一百六" to 106 and "一百六十一" to 161. -/
theorem converter_examples :
    chinese_to_number ("一".toList) = 1 ∧ chinese_to_number ("十".toList) = 10 ∧
    chinese_to_number ("四十三".toList) = 43 ∧ chinese_to_number ("一百".toList) = 100 ∧
    chinese_to_number ("一百二".toList) = 102 ∧ chinese_to_number ("一百六".toList) = 106 ∧
    chinese_to_number ("一百六十一".toList) = 161 := by
  refine ⟨by decide, by decide, by decide, by decide, by decide, by decide, by decide⟩

/-- C10: the Converter is total — on every input string, including the
empty string and strings containing unrecognized characters, it returns a
nonnegative integer and raises no exception (the only fallible operation
of the source, `dict.get`, is used with an explicit default, so the
embedding is a total function into `Int`); unrecognized characters simply
contribute the pending-digit value 0. -/
theorem converter_total :
    (∀ s : List Char, 0 ≤ chinese_to_number s) ∧
    chinese_to_number [] = 0 ∧ chinese_to_number ("a一".toList) = 1 := by
  refine ⟨?_, by decide, by decide⟩
  intro s
  match s with
  | [] => decide
  | [c] => simpa [chinese_to_number] using chineseNums_nonneg c
  | a :: b :: t =>
    have h : chinese_to_number (a :: b :: t) = c2nLoop 0 0 (a :: b :: t) := rfl
    rw [h]
    exact c2nLoop_nonneg _ 0 0 le_rfl le_rfl

theorem c2nLoop_foldl (s : List Char) : ∀ temp result : Int,
    c2nLoop temp result s =
      (s.foldl specStep (temp, result)).2 + (s.foldl specStep (temp, result)).1 := by
  induction s with
  | nil => intro temp result; simp [c2nLoop]
  | cons c cs ih =>
    intro temp result
    by_cases h1 : c = '百'
    · simp [c2nLoop, specStep, h1, ih]
    · by_cases h2 : c = '十'
      · simp [c2nLoop, specStep, h1, h2, ih]
      · simp [c2nLoop, specStep, h1, h2, ih]

/-- C3: on every input of length at least two, the Converter equals the
left-to-right fold with state (pending digit, running total) described by
the spec: a hundreds marker commits `(pending-or-1) * 100` and clears the
pending digit, a tens marker commits `(pending-or-1) * 10` and clears it,
any other character overwrites the pending digit with its table value,
and the leftover pending digit is added after the scan; a marker seen
with pending 0 thus behaves as if preceded by one. -/
theorem converter_fold_equiv (s : List Char) (h : 2 ≤ s.length) :
    chinese_to_number s = specFoldConverter s := by
  match s with
  | [] => simp at h
  | [c] => simp at h
  | a :: b :: t =>
    have hd : chinese_to_number (a :: b :: t) = c2nLoop 0 0 (a :: b :: t) := rfl
    rw [hd, c2nLoop_foldl]
    simp [specFoldConverter]

/-- Witness for `converter_fold_equiv` at the concrete input "一百". -/
theorem converter_fold_equiv_witness :
    2 ≤ ("一百".toList).length ∧
      chinese_to_number ("一百".toList) = specFoldConverter ("一百".toList) :=
  ⟨by decide, converter_fold_equiv ("一百".toList) (by decide)⟩

theorem parseLines_findSome (ls : List (List Char)) :
    parseLines ls = ls.findSome? lineChapter := by
  induction ls with
  | nil => rfl
  | cons l ls ih =>
    cases h1 : matchP1 l with
    | some p =>
      cases p with
      | mk v s => simp [parseLines, List.findSome?, lineChapter, h1]
    | none =>
      cases h2 : matchP2 l with
      | some v => simp [parseLines, List.findSome?, lineChapter, h1, h2]
      | none => simp [parseLines, List.findSome?, lineChapter, h1, h2, ih]

/-- C5: the Parser's result is the first line (top to bottom) whose
per-line result — volume-with-section pattern tried before volume-only —
is a match, and `none` when no line matches; in particular a document
whose first matching line is `# 卷一之一` yields (1, 1), one whose first
matching line is `# 卷三目録` yields (3, absent), and a document with no
matching line yields none. -/
theorem parser_first_match :
    (∀ content : List Char,
      parse_chapter_title content = (splitLines content).findSome? lineChapter) ∧
    parse_chapter_title ("text\n# 卷一之一\n# 卷二之二".toList) = some (1, some 1) ∧
    parse_chapter_title ("text\n# 卷三目録\nmore".toList) = some (3, none) ∧
    parse_chapter_title ("hello\nworld".toList) = none := by
  refine ⟨?_, by decide, by decide, by decide⟩
  intro content
  exact parseLines_findSome _

/-- C9: when neither input document has a frontmatter block, the merged
output nevertheless begins with a delimited metadata block whose content
is the literal four-character text "None" (Python's `str(None)` inside
the f-string), followed by the two bodies. -/
theorem merger_none_frontmatter (cat con : List Char)
    (hc : (extract_frontmatter_and_content cat).1 = none)
    (hf : (extract_frontmatter_and_content con).1 = none) :
    mergeDocs cat con =
      ("---\nNone\n---\n".toList) ++ (extract_frontmatter_and_content cat).2 ++
        '\n' :: (extract_frontmatter_and_content con).2 := by
  have h9 : ("---\nNone\n---\n".toList) = fmMarker ++ (("None".toList) ++ fmSep) := by
    decide
  simp only [mergeDocs, hc, hf, ite_self]
  have hr9 : renderFm none = ("None".toList) := rfl
  rw [hr9, h9]
  simp only [List.append_assoc]

/-- Witness for `merger_none_frontmatter` on two documents without
frontmatter. -/
theorem merger_none_frontmatter_witness :
    (extract_frontmatter_and_content ("hello".toList)).1 = none ∧
    mergeDocs ("hello".toList) ("world".toList) =
      ("---\nNone\n---\n".toList) ++ (extract_frontmatter_and_content ("hello".toList)).2 ++
        '\n' :: (extract_frontmatter_and_content ("world".toList)).2 :=
  ⟨by decide, merger_none_frontmatter _ _ (by decide) (by decide)⟩

/-- C2 counterexample: a catalog file with an empty (but present)
frontmatter block is falsy in Python, so the merged output's frontmatter
is the content file's, not the catalog's. -/
theorem merger_metadata_counterexample :
    (extract_frontmatter_and_content ("---\n\n---\nA".toList)).1 = some [] ∧
    (extract_frontmatter_and_content
        (mergeDocs ("---\n\n---\nA".toList) ("---\nk: v\n---\nB".toList))).1 =
      some ("k: v".toList) ∧
    some ("k: v".toList) ≠ (some ([] : List Char)) := by
  refine ⟨by decide, by decide, by decide⟩

/-- C1 counterexample: a directory whose single file is already at its
canonical chapter-based name 001_01.md.  The canonical name does not
match the selection glob KR3k0059_*.md, so a second run performs zero
renames but also reports nothing: the file is not reported as skipped
already-correct (skipped count 0, no outcomes), contradicting the claim
that every such file is reported as skipped. -/
theorem renamer_idempotence_counterexample :
    ("001_01.md".toList) = format_chapter_number 1 (some 1) ++ (".md".toList) ∧
    parse_chapter_title ("# 卷一之一".toList) = some (1, some 1) ∧
    (process_md_files false [(("001_01.md".toList), some ("# 卷一之一".toList))]).outcomes = [] ∧
    (process_md_files false [(("001_01.md".toList), some ("# 卷一之一".toList))]).skipped = 0 ∧
    (process_md_files false [(("001_01.md".toList), some ("# 卷一之一".toList))]).renamed = 0 := by
  refine ⟨by decide, by decide, by decide, by decide, by decide⟩

/-- C8: whatever raises during a single file's processing is caught at
that iteration: a file whose read fails is recorded as a failedError
outcome with only the failed counter incremented and the filesystem
untouched, and the driver still produces exactly one outcome per selected
file, so no per-file error propagates past the per-file boundary. -/
theorem renamer_error_containment :
    (∀ (dry : Bool) (st : RState) (name : List Char),
      readContent st.fs name = none →
      processFile dry st name =
        { st with failed := st.failed + 1,
                  outcomes := st.outcomes ++ [(name, FileOutcome.failedError)] }) ∧
    (∀ (dry : Bool) (st : RState) (names : List (List Char)),
      (runFiles dry st names).outcomes.length = st.outcomes.length + names.length) := by
  constructor
  · intro dry st name h
    unfold processFile
    rw [h]
  · intro dry st names
    induction names generalizing st with
    | nil => rfl
    | cons n ns ih =>
      have hlen : (processFile dry st n).outcomes.length = st.outcomes.length + 1 := by
        unfold processFile
        repeat' split
        all_goals simp [apply_ite (fun st : RState => st.outcomes.length)]
      have hstep : runFiles dry st (n :: ns) = runFiles dry (processFile dry st n) ns := rfl
      rw [hstep, ih (processFile dry st n), hlen, List.length_cons]
      omega

/-- Witness for `renamer_error_containment` on a directory with a single
unreadable file. -/
theorem renamer_error_containment_witness :
    readContent [(("KR3k0059_001.md".toList), none)] ("KR3k0059_001.md".toList) = none ∧
    processFile false
        { fs := [(("KR3k0059_001.md".toList), none)], renamed := 0, skipped := 0,
          failed := 0, outcomes := [] } ("KR3k0059_001.md".toList) =
      { fs := [(("KR3k0059_001.md".toList), none)], renamed := 0, skipped := 0,
        failed := 0 + 1,
        outcomes := [] ++ [(("KR3k0059_001.md".toList), FileOutcome.failedError)] } ∧
    (runFiles false
        { fs := [(("KR3k0059_001.md".toList), none)], renamed := 0, skipped := 0,
          failed := 0, outcomes := [] }
        [("KR3k0059_001.md".toList), ("KR3k0059_001.md".toList)]).outcomes.length = 0 + 2 :=
  ⟨rfl,
   renamer_error_containment.1 false
     { fs := [(("KR3k0059_001.md".toList), none)], renamed := 0, skipped := 0,
       failed := 0, outcomes := [] } ("KR3k0059_001.md".toList) rfl,
   renamer_error_containment.2 false
     { fs := [(("KR3k0059_001.md".toList), none)], renamed := 0, skipped := 0,
       failed := 0, outcomes := [] }
     [("KR3k0059_001.md".toList), ("KR3k0059_001.md".toList)]⟩

theorem digitChar_toNat : ∀ n : Nat, n < 10 → (digitChar n).toNat = 48 + n := by
  decide

theorem natCharsGo_digits : ∀ (fuel n : Nat) (c : Char), c ∈ natCharsGo fuel n →
    48 ≤ c.toNat ∧ c.toNat < 58 := by
  intro fuel
  induction fuel with
  | zero => intro n c hc; simp [natCharsGo] at hc
  | succ f ih =>
    intro n c hc
    by_cases h : n < 10
    · simp only [natCharsGo, if_pos h, List.mem_singleton] at hc
      subst hc
      have := digitChar_toNat n h
      omega
    · simp only [natCharsGo, if_neg h, List.mem_append, List.mem_singleton] at hc
      rcases hc with hc | hc
      · exact ih _ _ hc
      · subst hc
        have h10 : n % 10 < 10 := Nat.mod_lt _ (by norm_num)
        have := digitChar_toNat _ h10
        omega

theorem natCharsGo_ne_nil (f n : Nat) : natCharsGo (f + 1) n ≠ [] := by
  by_cases h : n < 10 <;> simp [natCharsGo, h]

theorem natToChars_head (n : Nat) :
    ∃ c t, natToChars n = c :: t ∧ 48 ≤ c.toNat ∧ c.toNat < 58 := by
  rcases h : natToChars n with _ | ⟨c, t⟩
  · exact absurd h (natCharsGo_ne_nil n n)
  · refine ⟨c, t, rfl, ?_⟩
    have hm : c ∈ natToChars n := by rw [h]; exact List.mem_cons_self _ _
    exact natCharsGo_digits _ _ _ hm

theorem padNat_head (w n : Nat) :
    ∃ c t, padNat w n = c :: t ∧ 48 ≤ c.toNat ∧ c.toNat < 58 := by
  obtain ⟨c, t, hct, h1, h2⟩ := natToChars_head n
  simp only [padNat]
  rcases hk : w - (natToChars n).length with _ | k
  · rw [List.replicate_zero, List.nil_append, hct]
    exact ⟨c, t, rfl, h1, h2⟩
  · exact ⟨'0', List.replicate k '0' ++ natToChars n, rfl, by decide, by decide⟩

theorem format_head (v : Int) (sec : Option Int) :
    ∃ c t, format_chapter_number v sec = c :: t ∧ c ≠ 'K' := by
  have hpi : ∃ c t, padInt 3 v = c :: t ∧ c ≠ 'K' := by
    unfold padInt
    split_ifs with h
    · exact ⟨'-', _, rfl, by decide⟩
    · obtain ⟨c, t, hct, h1, h2⟩ := padNat_head 3 v.toNat
      refine ⟨c, t, hct, ?_⟩
      intro hK
      subst hK
      have h75 : ('K').toNat = 75 := rfl
      omega
  obtain ⟨c, t, hct, hK⟩ := hpi
  cases sec with
  | none => exact ⟨c, t, by simpa [format_chapter_number] using hct, hK⟩
  | some s =>
    refine ⟨c, t ++ '_' :: padInt 2 s, ?_, hK⟩
    simp [format_chapter_number, hct]

theorem globMatch_canonical (v : Int) (sec : Option Int) :
    globMatch (format_chapter_number v sec ++ (".md".toList)) = false := by
  obtain ⟨c, t, hct, hK⟩ := format_head v sec
  have hbeq : ('K' == c) = false := beq_eq_false_iff_ne.mpr (fun h => hK h.symm)
  have hKR : ("KR3k0059_".toList) = 'K' :: ("R3k0059_".toList) := rfl
  unfold globMatch
  rw [hct, List.cons_append, hKR]
  have hA : (('K' :: ("R3k0059_".toList)).isPrefixOf (c :: (t ++ (".md".toList)))) = false := by
    simp [List.isPrefixOf, hbeq]
  rw [hA]
  simp

theorem canonical_filter_nil (fs : List (List Char × Option (List Char)))
    (h : ∀ e ∈ fs, ∃ v sec, e.1 = format_chapter_number v sec ++ (".md".toList)) :
    (fs.map Prod.fst).filter globMatch = [] := by
  induction fs with
  | nil => rfl
  | cons e es ih =>
    obtain ⟨v, sec, hv⟩ := h e (List.mem_cons_self _ _)
    have hg : globMatch e.1 = false := by rw [hv]; exact globMatch_canonical v sec
    rw [List.map_cons, List.filter_cons_of_neg]
    · exact ih (fun x hx => h x (List.mem_cons_of_mem _ hx))
    · simp [hg]

/-- C1 (amended): a second run of the Renamer over a directory whose
files are all already at their canonical chapter-based names performs
zero renames — but not because each file is reported as skipped
already-correct: a canonical name starts with a digit (or a minus sign),
never with the glob prefix `KR3k0059_`, so the run selects no files at
all, reports no outcome for any file, and leaves the directory unchanged. -/
theorem renamer_canonical_noop (dry : Bool)
    (fs : List (List Char × Option (List Char)))
    (h : ∀ e ∈ fs, ∃ v sec, e.1 = format_chapter_number v sec ++ (".md".toList)) :
    (process_md_files dry fs).renamed = 0 ∧
    (process_md_files dry fs).outcomes = [] ∧
    (process_md_files dry fs).fs = fs := by
  have hf : (fs.map Prod.fst).filter globMatch = [] := canonical_filter_nil fs h
  unfold process_md_files
  rw [hf]
  exact ⟨rfl, rfl, rfl⟩

/-- Witness for `renamer_canonical_noop` on a directory with one
canonically named file. -/
theorem renamer_canonical_noop_witness :
    (process_md_files false [(("001_01.md".toList), some ("# 卷一之一".toList))]).renamed = 0 ∧
    (process_md_files false [(("001_01.md".toList), some ("# 卷一之一".toList))]).outcomes = [] ∧
    (process_md_files false [(("001_01.md".toList), some ("# 卷一之一".toList))]).fs =
      [(("001_01.md".toList), some ("# 卷一之一".toList))] :=
  renamer_canonical_noop false _ (by
    intro e he
    rw [List.mem_singleton] at he
    subst he
    exact ⟨1, some 1, by decide⟩)

theorem natCharsGo_val : ∀ (fuel n a : Nat), n < fuel →
    List.foldl (fun acc c => acc * 10 + (c.toNat - 48)) a (natCharsGo fuel n) =
      a * 10 ^ (natCharsGo fuel n).length + n := by
  intro fuel
  induction fuel with
  | zero => intro n a h; exact absurd h (Nat.not_lt_zero n)
  | succ f ih =>
    intro n a h
    by_cases h10 : n < 10
    · simp only [natCharsGo, if_pos h10, List.foldl_cons, List.foldl_nil,
        List.length_singleton, pow_one]
      have := digitChar_toNat n h10
      omega
    · have hge : 10 ≤ n := Nat.le_of_not_lt h10
      have hdiv : n / 10 < f := by
        have hlt : n / 10 < n := Nat.div_lt_self (by omega) (by omega)
        omega
      simp only [natCharsGo, if_neg h10, List.foldl_append, List.foldl_cons,
        List.foldl_nil, List.length_append, List.length_singleton]
      rw [ih (n / 10) a hdiv]
      have hd := digitChar_toNat (n % 10) (Nat.mod_lt _ (by omega))
      set L := (natCharsGo f (n / 10)).length with hL
      have hmod : 10 * (n / 10) + n % 10 = n := Nat.div_add_mod n 10
      calc (a * 10 ^ L + n / 10) * 10 + ((digitChar (n % 10)).toNat - 48)
          = a * (10 ^ L * 10) + (10 * (n / 10) + n % 10) := by rw [hd]; ring_nf; omega
        _ = a * 10 ^ (L + 1) + n := by rw [hmod, pow_succ]

theorem digitsVal_natToChars (n : Nat) : digitsVal (natToChars n) = n := by
  unfold digitsVal natToChars
  rw [natCharsGo_val (n + 1) n 0 (Nat.lt_succ_self n)]
  simp

theorem digitsVal_padNat (w n : Nat) : digitsVal (padNat w n) = n := by
  have hz : ∀ k, List.foldl (fun acc c => acc * 10 + (c.toNat - 48)) 0
      (List.replicate k '0') = 0 := by
    intro k
    induction k with
    | zero => rfl
    | succ k ihk => simpa [List.replicate_succ] using ihk
  unfold padNat digitsVal
  rw [List.foldl_append, hz]
  exact digitsVal_natToChars n

theorem padNat_inj (w : Nat) {m n : Nat} (h : padNat w m = padNat w n) : m = n := by
  have hm := digitsVal_padNat w m
  rw [h, digitsVal_padNat] at hm
  omega

theorem outName_inj {m n : Nat} (h : outName m = outName n) : m = n := by
  unfold outName at h
  exact padNat_inj 3 (List.append_cancel_left (List.append_cancel_right h))

theorem mergeFold_char (d : List (Nat × List Char)) :
    ∀ (ks : List Nat) (outs : List (List Char × List Char)) (cnt : Nat),
      ks.foldl (mergeStep d) (outs, cnt) =
        (outs ++ (ks.filter (mergeable d)).map
            (fun n => (outName n,
              mergeDocs ((dictLookup d n).getD []) ((dictLookup d (n + 1)).getD []))),
         cnt + (ks.filter (mergeable d)).length) := by
  intro ks
  induction ks with
  | nil => intro outs cnt; simp
  | cons n ks ih =>
    intro outs cnt
    rw [List.foldl_cons]
    by_cases h1 : n % 2 = 1
    · cases hc : dictLookup d n with
      | some cat =>
        cases hf : dictLookup d (n + 1) with
        | some con =>
          have hm : mergeable d n = true := by simp [mergeable, h1, hc, hf]
          have hstep : mergeStep d (outs, cnt) n =
              (outs ++ [(outName n, mergeDocs cat con)], cnt + 1) := by
            simp [mergeStep, h1, hc, hf]
          rw [hstep, ih]
          rw [List.filter_cons_of_pos (by simp [hm])]
          simp [hc, hf, List.append_assoc]
          omega
        | none =>
          have hm : mergeable d n = false := by simp [mergeable, hf]
          have hstep : mergeStep d (outs, cnt) n = (outs, cnt) := by
            simp [mergeStep, h1, hc, hf]
          rw [hstep, ih, List.filter_cons_of_neg (by simp [hm])]
      | none =>
        have hm : mergeable d n = false := by simp [mergeable, hc]
        have hstep : mergeStep d (outs, cnt) n = (outs, cnt) := by
          simp [mergeStep, h1, hc]
        rw [hstep, ih, List.filter_cons_of_neg (by simp [hm])]
    · have hm : mergeable d n = false := by simp [mergeable, h1]
      have hstep : mergeStep d (outs, cnt) n = (outs, cnt) := by
        simp [mergeStep, h1]
      rw [hstep, ih, List.filter_cons_of_neg (by simp [hm])]

/-- C7: for a catalog file with an odd sequence number N whose content
partner N+1 is absent from the dictionary, the Merger writes no output
file named after N, the final merged count equals the number of complete
odd/even pairs (which excludes N), and every complete pair still produces
its output file — processing continues past the incomplete pair. -/
theorem merger_skips_incomplete (files : List (List Char × List Char)) (N : Nat)
    (h1 : N % 2 = 1)
    (h2 : (dictLookup (buildDict (mergeSource files)) N).isSome = true)
    (h3 : dictLookup (buildDict (mergeSource files)) (N + 1) = none) :
    (∀ e ∈ (merge_files files).1, e.1 ≠ outName N) ∧
    (merge_files files).2 =
      ((sortNat (dictKeys (buildDict (mergeSource files)))).filter
          (mergeable (buildDict (mergeSource files)))).length ∧
    N ∉ (sortNat (dictKeys (buildDict (mergeSource files)))).filter
          (mergeable (buildDict (mergeSource files))) ∧
    (∀ M ∈ sortNat (dictKeys (buildDict (mergeSource files))),
      mergeable (buildDict (mergeSource files)) M = true →
      ∃ e ∈ (merge_files files).1, e.1 = outName M) := by
  have hmf : merge_files files =
      (sortNat (dictKeys (buildDict (mergeSource files)))).foldl
        (mergeStep (buildDict (mergeSource files))) ([], 0) := rfl
  have hchar := mergeFold_char (buildDict (mergeSource files))
    (sortNat (dictKeys (buildDict (mergeSource files)))) [] 0
  have hmN : mergeable (buildDict (mergeSource files)) N = false := by
    simp [mergeable, h3]
  refine ⟨?_, ?_, ?_, ?_⟩
  · intro e he hname
    rw [hmf, hchar] at he
    simp only [List.nil_append, List.mem_map, List.mem_filter] at he
    obtain ⟨M, ⟨hMk, hMm⟩, hMe⟩ := he
    have hMn : M = N := outName_inj (by rw [← hname, ← hMe])
    rw [hMn, hmN] at hMm
    exact absurd hMm (by simp)
  · rw [hmf, hchar]
    simp
  · intro hN
    rw [List.mem_filter, hmN] at hN
    exact absurd hN.2 (by simp)
  · intro M hMk hMm
    rw [hmf, hchar]
    refine ⟨(outName M,
      mergeDocs ((dictLookup (buildDict (mergeSource files)) M).getD [])
        ((dictLookup (buildDict (mergeSource files)) (M + 1)).getD [])), ?_, rfl⟩
    simp only [List.nil_append, List.mem_map]
    exact ⟨M, List.mem_filter.mpr ⟨hMk, hMm⟩, rfl⟩

/-- Witness for `merger_skips_incomplete` on a directory with a single
odd-numbered catalog file and no content partner. -/
theorem merger_skips_incomplete_witness :
    (1 : Nat) % 2 = 1 ∧
    (dictLookup (buildDict (mergeSource [(("KR3k0059_001.md".toList),
        ("cat".toList))])) 1).isSome = true ∧
    dictLookup (buildDict (mergeSource [(("KR3k0059_001.md".toList),
        ("cat".toList))])) 2 = none ∧
    (∀ e ∈ (merge_files [(("KR3k0059_001.md".toList), ("cat".toList))]).1,
      e.1 ≠ outName 1) :=
  ⟨by decide, by decide, by decide,
   (merger_skips_incomplete [(("KR3k0059_001.md".toList), ("cat".toList))] 1
     (by decide) (by decide) (by decide)).1⟩

theorem take5_shift (x : List Char) (hx : x ≠ []) (b : List Char) :
    (x ++ fmTail).take 5 = (x ++ (fmSep ++ b)).take 5 := by
  rw [List.take_append_eq_append_take, List.take_append_eq_append_take]
  congr 1
  have hx1 : 1 ≤ x.length := List.length_pos.mpr hx
  have hm : 5 - x.length ≤ 4 := by omega
  rw [List.take_append_of_le_length (by simp [fmSep])]
  have ht : fmTail = fmSep.take 4 := rfl
  rw [ht, List.take_take, Nat.min_eq_left hm]

theorem sep_prefix_iff (x : List Char) (hx : x ≠ []) (b : List Char) :
    fmSep.isPrefixOf (x ++ (fmSep ++ b)) = fmSep.isPrefixOf (x ++ fmTail) := by
  have h1 : fmSep.isPrefixOf (x ++ (fmSep ++ b)) = true ↔
      fmSep.isPrefixOf (x ++ fmTail) = true := by
    rw [List.isPrefixOf_iff_prefix, List.isPrefixOf_iff_prefix,
      List.prefix_iff_eq_take, List.prefix_iff_eq_take]
    have h5 : fmSep.length = 5 := rfl
    rw [h5, ← take5_shift x hx b]
  cases hA : fmSep.isPrefixOf (x ++ (fmSep ++ b)) <;>
    cases hB : fmSep.isPrefixOf (x ++ fmTail) <;> simp_all

theorem splitFirstSep_append : ∀ (a b : List Char),
    hasSubstr fmSep (a ++ fmTail) = false →
    splitFirstSep (a ++ (fmSep ++ b)) = some (a, b) := by
  intro a
  induction a with
  | nil =>
    intro b h
    have hpre : fmSep.isPrefixOf ('\n' :: ('-' :: '-' :: '-' :: '\n' :: b)) = true := by
      rw [List.isPrefixOf_iff_prefix]
      exact ⟨b, rfl⟩
    show splitFirstSep ('\n' :: ('-' :: '-' :: '-' :: '\n' :: b)) = some ([], b)
    rw [splitFirstSep.eq_2, if_pos hpre]
    rfl
  | cons c cs ih =>
    intro b h
    have hh : hasSubstr fmSep ((c :: cs) ++ fmTail) =
        (fmSep.isPrefixOf ((c :: cs) ++ fmTail) || hasSubstr fmSep (cs ++ fmTail)) := rfl
    rw [hh] at h
    have hsub : hasSubstr fmSep (cs ++ fmTail) = false := (Bool.or_eq_false_iff.mp h).2
    have hB : fmSep.isPrefixOf ((c :: cs) ++ fmTail) = false := (Bool.or_eq_false_iff.mp h).1
    have hcond : fmSep.isPrefixOf (c :: (cs ++ (fmSep ++ b))) = false := by
      calc fmSep.isPrefixOf (c :: (cs ++ (fmSep ++ b)))
          = fmSep.isPrefixOf ((c :: cs) ++ (fmSep ++ b)) := rfl
        _ = fmSep.isPrefixOf ((c :: cs) ++ fmTail) := sep_prefix_iff (c :: cs) (by simp) b
        _ = false := hB
    show splitFirstSep (c :: (cs ++ (fmSep ++ b))) = some (c :: cs, b)
    rw [splitFirstSep.eq_2, if_neg (by simp [hcond]), ih b hsub]
    rfl

theorem splitFirstSep_sound : ∀ (s a b : List Char), splitFirstSep s = some (a, b) →
    s = a ++ (fmSep ++ b) ∧ hasSubstr fmSep (a ++ fmTail) = false := by
  intro s
  induction s with
  | nil => intro a b h; simp [splitFirstSep] at h
  | cons c cs ih =>
    intro a b h
    rw [splitFirstSep.eq_2] at h
    by_cases hp : fmSep.isPrefixOf (c :: cs) = true
    · rw [if_pos hp] at h
      simp only [Option.some.injEq, Prod.mk.injEq] at h
      obtain ⟨ha, hb⟩ := h
      subst ha
      subst hb
      obtain ⟨t, ht⟩ := List.isPrefixOf_iff_prefix.mp hp
      have hsplit : c :: cs = '\n' :: ('-' :: '-' :: '-' :: '\n' :: t) := ht.symm
      simp only [List.cons.injEq] at hsplit
      obtain ⟨hc, hcs⟩ := hsplit
      constructor
      · rw [List.nil_append, hc, hcs]
        rfl
      · rw [List.nil_append]
        decide
    · rw [if_neg hp] at h
      cases hs : splitFirstSep cs with
      | none => rw [hs] at h; simp at h
      | some p =>
        rw [hs] at h
        simp only [Option.map_some', Option.some.injEq, Prod.mk.injEq] at h
        obtain ⟨ha, hb⟩ := h
        obtain ⟨h1, h2⟩ := ih p.1 p.2 (by rw [hs])
        subst ha
        subst hb
        constructor
        · rw [List.cons_append, ← h1]
        · have hcons : hasSubstr fmSep ((c :: p.1) ++ fmTail) =
              (fmSep.isPrefixOf (c :: (p.1 ++ fmTail)) || hasSubstr fmSep (p.1 ++ fmTail)) := rfl
          rw [hcons, h2, Bool.or_false]
          have he : (c :: p.1) ++ (fmSep ++ p.2) = c :: cs := by
            rw [List.cons_append, ← h1]
          have hstep : fmSep.isPrefixOf (c :: (p.1 ++ fmTail)) =
              fmSep.isPrefixOf (c :: cs) := by
            calc fmSep.isPrefixOf (c :: (p.1 ++ fmTail))
                = fmSep.isPrefixOf ((c :: p.1) ++ fmTail) := rfl
              _ = fmSep.isPrefixOf ((c :: p.1) ++ (fmSep ++ p.2)) :=
                  (sep_prefix_iff (c :: p.1) (by simp) p.2).symm
              _ = fmSep.isPrefixOf (c :: cs) := by rw [he]
          rw [hstep, Bool.not_eq_true] at *
          exact hp

theorem extract_exact (meta body : List Char)
    (h : hasSubstr fmSep (meta ++ fmTail) = false) :
    extract_frontmatter_and_content (fmMarker ++ (meta ++ (fmSep ++ body))) =
      (some meta, body) := by
  unfold extract_frontmatter_and_content
  have hp : fmMarker.isPrefixOf (fmMarker ++ (meta ++ (fmSep ++ body))) = true := by
    rw [List.isPrefixOf_iff_prefix]
    exact ⟨_, rfl⟩
  rw [if_pos hp]
  have hd : (fmMarker ++ (meta ++ (fmSep ++ body))).drop 4 = meta ++ (fmSep ++ body) := rfl
  rw [hd, splitFirstSep_append meta body h]

theorem extract_sound (s fm b : List Char)
    (h : extract_frontmatter_and_content s = (some fm, b)) :
    s = fmMarker ++ (fm ++ (fmSep ++ b)) ∧ hasSubstr fmSep (fm ++ fmTail) = false := by
  unfold extract_frontmatter_and_content at h
  by_cases hp : fmMarker.isPrefixOf s = true
  · rw [if_pos hp] at h
    cases hs : splitFirstSep (s.drop 4) with
    | none => rw [hs] at h; simp at h
    | some p =>
      rw [hs] at h
      simp only [Option.some.injEq, Prod.mk.injEq] at h
      obtain ⟨ha, hb⟩ := h
      obtain ⟨h1, h2⟩ := splitFirstSep_sound _ _ _ hs
      obtain ⟨t, ht⟩ := List.isPrefixOf_iff_prefix.mp hp
      have hdrop : s.drop 4 = t := by rw [← ht]; rfl
      constructor
      · rw [← ht, ← hdrop, h1, ha, hb]
      · rw [← ha]
        exact h2
  · rw [if_neg hp] at h
    simp at h

/-- C4 counterexample: a text that does decompose as opening marker +
metadata segment + closing marker line + body with metadata segment
a\n---\nb and body c, yet the Splitter stops at the first closing marker
and returns (a, b\n---\nc) instead of the claimed pair. -/
theorem splitter_counterexample :
    ("---\na\n---\nb\n---\nc".toList) =
      fmMarker ++ ("a\n---\nb".toList) ++ fmSep ++ ("c".toList) ∧
    extract_frontmatter_and_content ("---\na\n---\nb\n---\nc".toList) =
      (some ("a".toList), ("b\n---\nc".toList)) ∧
    extract_frontmatter_and_content ("---\na\n---\nb\n---\nc".toList) ≠
      (some ("a\n---\nb".toList), ("c".toList)) := by
  refine ⟨by decide, by decide, by decide⟩

/-- C4 (amended): for every text of the form opening marker + metadata
segment + closing marker line + body where the metadata segment does not
itself contain an embedded closing marker (no occurrence of the
five-character separator inside metadata ++ "\n---"), the Splitter
returns exactly the metadata segment and exactly the body; moreover
re-wrapping any successful split into the delimited form and splitting
again reproduces the same pair. -/
theorem splitter_exact_roundtrip (meta body : List Char)
    (h : hasSubstr fmSep (meta ++ fmTail) = false) :
    extract_frontmatter_and_content (fmMarker ++ meta ++ fmSep ++ body) =
      (some meta, body) ∧
    (∀ s fm b, extract_frontmatter_and_content s = (some fm, b) →
      extract_frontmatter_and_content (fmMarker ++ fm ++ fmSep ++ b) = (some fm, b)) := by
  constructor
  · have he := extract_exact meta body h
    simpa [List.append_assoc] using he
  · intro s fm b hs
    have h2 := (extract_sound s fm b hs).2
    have he := extract_exact fm b h2
    simpa [List.append_assoc] using he

/-- Witness for `splitter_exact_roundtrip` on a concrete frontmatter. -/
theorem splitter_exact_roundtrip_witness :
    hasSubstr fmSep (("title: x".toList) ++ fmTail) = false ∧
    extract_frontmatter_and_content
        (fmMarker ++ ("title: x".toList) ++ fmSep ++ ("Body".toList)) =
      (some ("title: x".toList), ("Body".toList)) :=
  ⟨by decide,
   (splitter_exact_roundtrip ("title: x".toList) ("Body".toList) (by decide)).1⟩

theorem merged_extract (cat con : List Char) :
    extract_frontmatter_and_content (mergeDocs cat con) =
      (some (renderFm (if pyTruthy (extract_frontmatter_and_content cat).1 then
            (extract_frontmatter_and_content cat).1
          else (extract_frontmatter_and_content con).1)),
        (extract_frontmatter_and_content cat).2 ++
          '\n' :: (extract_frontmatter_and_content con).2) := by
  have hR : hasSubstr fmSep
      (renderFm (if pyTruthy (extract_frontmatter_and_content cat).1 then
          (extract_frontmatter_and_content cat).1
        else (extract_frontmatter_and_content con).1) ++ fmTail) = false := by
    rcases hch : (if pyTruthy (extract_frontmatter_and_content cat).1 then
        (extract_frontmatter_and_content cat).1
      else (extract_frontmatter_and_content con).1) with _ | s
    · decide
    · have hor : (extract_frontmatter_and_content cat).1 = some s ∨
          (extract_frontmatter_and_content con).1 = some s := by
        by_cases hpt : pyTruthy (extract_frontmatter_and_content cat).1 = true
        · left; rwa [if_pos hpt] at hch
        · right; rwa [if_neg hpt] at hch
      rcases hor with hcase | hcase
      · have hpair : extract_frontmatter_and_content cat =
            (some s, (extract_frontmatter_and_content cat).2) := by
          rw [← hcase]
        exact (extract_sound cat s _ hpair).2
      · have hpair : extract_frontmatter_and_content con =
            (some s, (extract_frontmatter_and_content con).2) := by
          rw [← hcase]
        exact (extract_sound con s _ hpair).2
  have hm : mergeDocs cat con =
      fmMarker ++ (renderFm (if pyTruthy (extract_frontmatter_and_content cat).1 then
            (extract_frontmatter_and_content cat).1
          else (extract_frontmatter_and_content con).1) ++
        (fmSep ++ ((extract_frontmatter_and_content cat).2 ++
          '\n' :: (extract_frontmatter_and_content con).2))) := by
    simp only [mergeDocs, List.append_assoc]
  rw [hm]
  exact extract_exact _ _ hR

/-- C2 (amended): when the catalog document has a nonempty metadata
block, the merged output's metadata block equals the catalog's; when the
catalog's metadata block is absent or empty (Python truthiness treats
both alike), the content document's rendered metadata block is used
instead. -/
theorem merger_metadata_precedence (cat con : List Char) :
    (∀ s, (extract_frontmatter_and_content cat).1 = some s → s ≠ [] →
      (extract_frontmatter_and_content (mergeDocs cat con)).1 = some s) ∧
    (pyTruthy (extract_frontmatter_and_content cat).1 = false →
      (extract_frontmatter_and_content (mergeDocs cat con)).1 =
        some (renderFm (extract_frontmatter_and_content con).1)) := by
  constructor
  · intro s hs hne
    have hpt : pyTruthy (extract_frontmatter_and_content cat).1 = true := by
      rw [hs]
      simp [pyTruthy, hne]
    rw [merged_extract, if_pos hpt, hs]
    rfl
  · intro hf
    rw [merged_extract, if_neg (by simp [hf])]

/-- Witness for `merger_metadata_precedence` on a catalog with a nonempty
metadata block. -/
theorem merger_metadata_precedence_witness :
    (extract_frontmatter_and_content ("---\nk\n---\nA".toList)).1 = some ("k".toList) ∧
    ("k".toList) ≠ ([] : List Char) ∧
    (extract_frontmatter_and_content
        (mergeDocs ("---\nk\n---\nA".toList) ("---\nz\n---\nB".toList))).1 =
      some ("k".toList) :=
  ⟨by decide, by decide,
   (merger_metadata_precedence ("---\nk\n---\nA".toList) ("---\nz\n---\nB".toList)).1
     ("k".toList) (by decide) (by decide)⟩

end KR3k
